import Mathlib

/-!
Shallow embedding of the Realm object-store schema layer.

The data model and the `ObjectSchema` constructor are translated from
`object_schema.cpp`.  The `ObjectStore` coordinator is declared in
`object_store.hpp` but its implementation is not part of this fragment,
so the coordinator operations are modelled from the specification
(each such definition says so in its doc comment).
-/

namespace Realm

/-- The closed set of property kinds (from the spec's data model; the
source casts the storage engine's column type tag to this enum). -/
inductive PropertyType where
  | Int
  | Bool
  | Float
  | Double
  | String
  | Data
  | Date
  | Object
  | Array
deriving DecidableEq, Repr, BEq

/-- One column/attribute of a logical type, as in `object_schema.hpp` /
spec section 3. -/
structure Property where
  name : String
  type : PropertyType
  object_type : String
  is_indexed : Bool
  is_primary : Bool
  table_column : Nat
deriving DecidableEq, Repr

/-- A physical column of the storage engine: its name, type tag, whether a
search index exists on it, and (for link columns) the physical name of the
link target table. -/
structure Column where
  name : String
  type : PropertyType
  has_search_index : Bool
  link_target : String
deriving DecidableEq, Repr

/-- A physical table: its physical name and its ordered columns. -/
structure Table where
  name : String
  columns : List Column
deriving DecidableEq, Repr

/-- The schema-relevant state of a storage group: its tables, the per-type
primary-key name registry, whether the metadata tables exist, and the
stored schema-version counter (meaningful only when metadata exists). -/
structure Group where
  tables : List Table
  primary_keys : List (String × String)
  has_metadata : Bool
  version : Nat
deriving DecidableEq, Repr

/-- Modelled from the spec: physical-name/logical-type-name translation is
a fixed, reversible string transform using a reserved name marker
(`ObjectStore::table_name_for_object_type`; body not in this fragment). -/
def table_name_for_object_type (class_name : String) : String :=
  "class_" ++ class_name

/-- Strip the reserved logical-type marker from a physical name's
characters, or fail when the name does not carry it. -/
def strip_class_marker : List Char → Option (List Char)
  | 'c' :: 'l' :: 'a' :: 's' :: 's' :: '_' :: rest => some rest
  | _ => none

/-- Modelled from the spec: the inverse transform
(`ObjectStore::object_type_for_table_name`; body not in this fragment).
Tables outside the naming convention decode to the empty string. -/
def object_type_for_table_name (table_name : String) : String :=
  match strip_class_marker table_name.data with
  | some rest => String.mk rest
  | none => ""

/-- Modelled from the spec: resolve a table handle by logical-type-derived
physical name (`ObjectStore::table_for_object_type`; body not in this
fragment). -/
def table_for_object_type (g : Group) (object_type : String) : Option Table :=
  g.tables.find? (fun t => t.name == table_name_for_object_type object_type)

/-- Modelled from the spec: look up the stored primary-key name for a type
in the per-type registry (`ObjectStore::get_primary_key_for_object`; body
not in this fragment).  Absent entries read as the empty string. -/
def get_primary_key_for_object (g : Group) (object_type : String) : String :=
  match g.primary_keys.find? (fun e => e.1 == object_type) with
  | some e => e.2
  | none => ""

/-- Validation failure carrying the accumulated error list and the owning
type name, as `ObjectStoreValidationException` in `object_store.hpp`. -/
structure ObjectStoreValidationException where
  validation_errors : List String
  object_type : String
deriving DecidableEq, Repr

/-- The structured failure kinds of `ObjectStoreException` in
`object_store.hpp`. -/
inductive ObjectStoreExceptionKind where
  | RealmVersionGreaterThanSchemaVersion
deriving DecidableEq, Repr

/-- Modelled from the spec: the distinguished 64-bit sentinel meaning
"never versioned" (`ObjectStore::NotVersioned`; value not in this
fragment; modelled as the largest 64-bit value, which no version counter
reaches). -/
def NotVersioned : Nat := 2 ^ 64 - 1

/-- Modelled from the spec: read the stored version counter, returning the
unversioned sentinel if no metadata exists yet
(`ObjectStore::get_schema_version`; body not in this fragment). -/
def get_schema_version (g : Group) : Nat :=
  if g.has_metadata then g.version else NotVersioned

/-- Modelled from the spec: write a new stored version
(`ObjectStore::set_schema_version`; body not in this fragment). -/
def set_schema_version (g : Group) (version : Nat) : Group :=
  { g with version := version }

/-- Modelled from the spec: create the metadata tables if absent; the
fresh version counter reads as the unversioned sentinel.  Returns whether
anything was done (`ObjectStore::create_metadata_tables`; body not in this
fragment). -/
def create_metadata_tables (g : Group) : Group × Bool :=
  if g.has_metadata then (g, false)
  else ({ g with has_metadata := true, version := NotVersioned }, true)

/-- Modelled from the spec: migration is required iff the stored version
is the unversioned sentinel or strictly less than the target; a stored
version strictly greater than the target is a fatal ordering error
(`ObjectStore::is_migration_required`; body not in this fragment). -/
def is_migration_required (g : Group) (new_version : Nat) :
    Except ObjectStoreExceptionKind Bool :=
  let old := get_schema_version g
  if old = NotVersioned then .ok true
  else if old < new_version then .ok true
  else if old = new_version then .ok false
  else .error ObjectStoreExceptionKind.RealmVersionGreaterThanSchemaVersion

/-- Build the `Property` for one physical column, exactly as the loop body
of the `ObjectSchema` constructor in `object_schema.cpp` lines 29-43. -/
def propertyOfColumn (col : Nat) (c : Column) : Property :=
  { name := c.name
  , type := c.type
  , is_indexed := c.has_search_index
  , is_primary := false
  , table_column := col
  , object_type :=
      if c.type == PropertyType.Object || c.type == PropertyType.Array then
        object_type_for_table_name c.link_target
      else "" }

/-- The constructor's column loop, carrying the running column index. -/
def introspectFrom : Nat → List Column → List Property
  | _, [] => []
  | col, c :: cs => propertyOfColumn col c :: introspectFrom (col + 1) cs

/-- All properties of a table in physical column order
(`object_schema.cpp` lines 27-44). -/
def introspectProperties (t : Table) : List Property :=
  introspectFrom 0 t.columns

/-- `ObjectSchema::property_for_name`: linear scan returning the first
property with the given name (`object_schema.cpp` lines 58-65). -/
def property_for_name (props : List Property) (n : String) : Option Property :=
  props.find? (fun p => p.name == n)

/-- Set `is_primary` on the first property with the given name.  This
models the source's in-place write through the pointer returned by
`property_for_name` (`object_schema.cpp` line 54). -/
def markPrimary : List Property → String → List Property
  | [], _ => []
  | p :: ps, pk =>
      if p.name == pk then { p with is_primary := true } :: ps
      else p :: markPrimary ps pk

/-- One logical type: a name, ordered properties, and the primary-key
property name (empty if none), as in `object_schema.hpp` / spec section 3. -/
structure ObjectSchema where
  name : String
  properties : List Property
  primary_key : String
deriving DecidableEq, Repr

/-- The `ObjectSchema` constructor body for an already-resolved table
(`object_schema.cpp` lines 25-56): introspect every column, read the
stored primary-key name, and fail with a validation error if that name is
set but matches no property; otherwise mark the matching property. -/
def ObjectSchema.ofTable (g : Group) (name : String) (t : Table) :
    Except ObjectStoreValidationException ObjectSchema :=
  let props := introspectProperties t
  let pk := get_primary_key_for_object g name
  if pk.length ≠ 0 then
    match property_for_name props pk with
    | none =>
        .error { validation_errors :=
                   ["No property matching primary key '" ++ pk ++ "'"]
               , object_type := name }
    | some _ => .ok { name := name, properties := markPrimary props pk, primary_key := pk }
  else .ok { name := name, properties := props, primary_key := pk }

/-- The loop of `ObjectSchema::object_schema_from_group`
(`object_schema.cpp` lines 72-77): for each table whose name decodes to a
non-empty logical name, construct a descriptor via the table lookup.  The
source resolves the table through `ObjectStore::table_for_object_type`,
which always succeeds for a decodable table name (the decoded name
re-encodes to the table's own name); the `none` branch is unreachable and
skips. -/
def objectSchemaFromTables (g : Group) : List Table →
    Except ObjectStoreValidationException (List ObjectSchema)
  | [] => .ok []
  | t :: ts =>
      let name := object_type_for_table_name t.name
      if name.length ≠ 0 then
        match table_for_object_type g name with
        | some tbl =>
            match ObjectSchema.ofTable g name tbl with
            | .error e => .error e
            | .ok s =>
                match objectSchemaFromTables g ts with
                | .error e => .error e
                | .ok rest => .ok (s :: rest)
        | none => objectSchemaFromTables g ts
      else objectSchemaFromTables g ts

/-- `ObjectSchema::object_schema_from_group` (`object_schema.cpp` lines
67-80): one descriptor per table following the naming convention, in
physical table iteration order. -/
def object_schema_from_group (g : Group) :
    Except ObjectStoreValidationException (List ObjectSchema) :=
  objectSchemaFromTables g g.tables

/-- Locate the first physical column with a given name together with its
physical position, carrying the running index. -/
def find_column_from : Nat → List Column → String → Option (Nat × Column)
  | _, [], _ => none
  | i, c :: cs, n =>
      if c.name == n then some (i, c) else find_column_from (i + 1) cs n

/-- Locate a physical column by name with its physical position. -/
def find_column (cols : List Column) (n : String) : Option (Nat × Column) :=
  find_column_from 0 cols n

/-- A target property is satisfiable against a table when a column of the
same name exists with the same primitive type and, for link types, the
same link-target logical name. -/
def property_satisfiable (t : Table) (p : Property) : Bool :=
  match find_column t.columns p.name with
  | none => false
  | some ic =>
      ic.2.type == p.type &&
        (!(p.type == PropertyType.Object || p.type == PropertyType.Array) ||
          object_type_for_table_name ic.2.link_target == p.object_type)

/-- Modelled from the spec: validate one target property against a table.
A missing column or a primitive-type / link-target mismatch records one
error and leaves the property untouched; otherwise the only mutation is
setting `table_column` to the physical position. -/
def validate_property (t : Table) (p : Property) : List String × Property :=
  match find_column t.columns p.name with
  | none => (["Missing property '" ++ p.name ++ "' for type " ++ p.name], p)
  | some ic =>
      if ic.2.type != p.type then
        (["Property type mismatch for '" ++ p.name ++ "'"], p)
      else if (p.type == PropertyType.Object || p.type == PropertyType.Array) &&
              object_type_for_table_name ic.2.link_target != p.object_type then
        (["Target object type mismatch for '" ++ p.name ++ "'"], p)
      else ([], { p with table_column := ic.1 })

/-- Modelled from the spec: validate every property of one target
descriptor against a physical table, accumulating all error strings
rather than failing on the first, and updating the column mapping of the
matching properties. -/
def validateAgainstTable (t : Table) (os : ObjectSchema) :
    List String × ObjectSchema :=
  let rs := os.properties.map (validate_property t)
  ((rs.map Prod.fst).flatten, { os with properties := rs.map Prod.snd })

/-- Modelled from the spec:
`ObjectStore::validate_schema_and_update_column_mapping` (body not in
this fragment): resolve the target type's physical table and validate the
descriptor against it.  An absent table reads as a table with no columns,
so every property is reported missing. -/
def validate_schema_and_update_column_mapping (g : Group) (os : ObjectSchema) :
    List String × ObjectSchema :=
  validateAgainstTable
    ((table_for_object_type g os.name).getD
      { name := table_name_for_object_type os.name, columns := [] }) os

/-- The physical column a target property prescribes: name and type
copied, index per `is_indexed`, link target re-encoded from
`object_type` for link types. -/
def column_of_property (p : Property) : Column :=
  { name := p.name
  , type := p.type
  , has_search_index := p.is_indexed
  , link_target :=
      if p.type == PropertyType.Object || p.type == PropertyType.Array then
        table_name_for_object_type p.object_type
      else "" }

/-- The physical table a target descriptor prescribes when created from
scratch. -/
def table_for_schema (os : ObjectSchema) : Table :=
  { name := table_name_for_object_type os.name
  , columns := os.properties.map column_of_property }

/-- Modelled from the spec: update an existing table towards a target
descriptor — sync the search-index flag of each column that matches a
target property by name, and append a column for every target property
with no physical counterpart.  Columns with a mismatched type are neither
dropped nor retyped. -/
def update_table (t : Table) (os : ObjectSchema) : Table :=
  let synced := t.columns.map (fun c =>
    match property_for_name os.properties c.name with
    | some p => { c with has_search_index := p.is_indexed }
    | none => c)
  let missing := os.properties.filter
    (fun p => (find_column t.columns p.name).isNone)
  { t with columns := synced ++ missing.map column_of_property }

/-- Replace every table of the given physical name. -/
def replace_table (ts : List Table) (tname : String) (t2 : Table) : List Table :=
  ts.map (fun t => if t.name == tname then t2 else t)

/-- Modelled from the spec: process one target descriptor of
`create_tables`.  An absent table is created from the descriptor (always
a change); an existing table is updated when `update_existing` is true,
and otherwise only validated, mismatches becoming a validation failure
tagged with the owning type name rather than a table mutation. -/
def create_one_table (g : Group) (os : ObjectSchema) (update_existing : Bool) :
    Group × Bool × Option ObjectStoreValidationException :=
  match table_for_object_type g os.name with
  | none => ({ g with tables := g.tables ++ [table_for_schema os] }, true, none)
  | some t =>
      if update_existing then
        ({ g with tables := replace_table g.tables t.name (update_table t os) },
         if update_table t os = t then false else true, none)
      else if (validateAgainstTable t os).1 = [] then (g, false, none)
      else (g, false,
        some { validation_errors := (validateAgainstTable t os).1
             , object_type := os.name })

/-- Modelled from the spec: `ObjectStore::create_tables` (body not in
this fragment): process the target descriptors in order, stopping at the
first validation failure; returns the new group state, whether any
physical mutation occurred, and the failure if any. -/
def create_tables (g : Group) (schema : List ObjectSchema)
    (update_existing : Bool) :
    Group × Bool × Option ObjectStoreValidationException :=
  match schema with
  | [] => (g, false, none)
  | os :: rest =>
      match create_one_table g os update_existing with
      | (g1, ch1, some e) => (g1, ch1, some e)
      | (g1, ch1, none) =>
          match create_tables g1 rest update_existing with
          | (g2, ch2, err) => (g2, ch1 || ch2, err)

/-- Observable steps of one `update_realm_with_schema` call, in order. -/
inductive Event where
  | metadataCreated
  | tablesReconciled (update_existing : Bool) (changed : Bool)
  | migrationInvoked
  | versionSet (v : Nat)
deriving DecidableEq, Repr

/-- Whether an event is a migration-callback invocation. -/
def isMigrationInvoked : Event → Bool
  | .migrationInvoked => true
  | _ => false

/-- How many times the migration callback was invoked in a trace. -/
def migration_invocations (evs : List Event) : Nat :=
  evs.countP isMigrationInvoked

/-- A failure of the orchestration: the structured fatal ordering error or
a validation failure. -/
inductive UpdateError where
  | ordering (k : ObjectStoreExceptionKind)
  | validation (e : ObjectStoreValidationException)
deriving DecidableEq, Repr

/-- Result of one `update_realm_with_schema` call: the group state it
leaves behind (the enclosing transaction is the caller's to abort),
whether any change was made, the failure if any, and the event trace. -/
structure UpdateOutcome where
  group : Group
  changed : Bool
  error : Option UpdateError
  events : List Event
deriving DecidableEq, Repr

/-- Modelled from the spec: `ObjectStore::update_realm_with_schema` (body
not in this fragment), following the orchestration state machine of the
spec: bootstrap metadata; on the unversioned sentinel initialize (tables
with `update_existing = true`, set version, no migration); on an equal
stored version create/validate with `update_existing = false` and write
no version; on a greater stored version fail with the structured ordering
error; otherwise reconcile with `update_existing = true`, invoke the
migration callback once, then write the version.  The callback performs
data transformations only, so it has no effect on the schema-level state
modelled here; its invocation is recorded in the event trace. -/
def update_realm_with_schema (g : Group) (version : Nat)
    (schema : List ObjectSchema) : UpdateOutcome :=
  let bm := create_metadata_tables g
  let ev1 := if bm.2 then [Event.metadataCreated] else []
  let old := get_schema_version bm.1
  if old = NotVersioned then
    let ct := create_tables bm.1 schema true
    { group := set_schema_version ct.1 version
    , changed := true
    , error := none
    , events := ev1 ++ [Event.tablesReconciled true ct.2.1, Event.versionSet version] }
  else if old = version then
    let ct := create_tables bm.1 schema false
    { group := ct.1
    , changed := bm.2 || ct.2.1
    , error := (ct.2.2).map UpdateError.validation
    , events := ev1 ++ [Event.tablesReconciled false ct.2.1] }
  else if version < old then
    { group := bm.1
    , changed := bm.2
    , error := some (UpdateError.ordering
        ObjectStoreExceptionKind.RealmVersionGreaterThanSchemaVersion)
    , events := ev1 }
  else
    let ct := create_tables bm.1 schema true
    { group := set_schema_version ct.1 version
    , changed := true
    , error := none
    , events := ev1 ++ [Event.tablesReconciled true ct.2.1,
        Event.migrationInvoked, Event.versionSet version] }

/-! ### Concrete stores used to exercise the definitions -/

/-- An indexed integer column named `id`. -/
def colId : Column :=
  { name := "id", type := PropertyType.Int, has_search_index := true, link_target := "" }

/-- An object-link column named `dog` targeting the `Dog` table. -/
def colDog : Column :=
  { name := "dog", type := PropertyType.Object, has_search_index := false
  , link_target := "class_Dog" }

/-- A `Person` table with an `id` and a `dog` column. -/
def tblPerson : Table := { name := "class_Person", columns := [colId, colDog] }

/-- A store holding the `Person` table, with `id` registered as the
primary key of `Person`. -/
def grpDemo : Group :=
  { tables := [tblPerson], primary_keys := [("Person", "id")]
  , has_metadata := true, version := 1 }

/-- The `id` property as introspected and marked primary. -/
def propIdMarked : Property :=
  { name := "id", type := PropertyType.Int, object_type := ""
  , is_indexed := true, is_primary := true, table_column := 0 }

/-- The `dog` property as introspected. -/
def propDog : Property :=
  { name := "dog", type := PropertyType.Object, object_type := "Dog"
  , is_indexed := false, is_primary := false, table_column := 1 }

/-- The descriptor the constructor produces for `Person` in `grpDemo`. -/
def osPerson : ObjectSchema :=
  { name := "Person", properties := [propIdMarked, propDog], primary_key := "id" }

/-- An empty `User` table. -/
def tblUser : Table := { name := "class_User", columns := [] }

/-- A store whose primary-key registry names a property the `User` table
does not have. -/
def grpUser : Group :=
  { tables := [tblUser], primary_keys := [("User", "id")]
  , has_metadata := true, version := 1 }

/-- An empty logical table `A`. -/
def tblA : Table := { name := "class_A", columns := [] }

/-- A metadata-style table whose name does not follow the logical-type
naming convention. -/
def tblMeta : Table := { name := "pk", columns := [] }

/-- A store with one logical table and one metadata table. -/
def grpAB : Group :=
  { tables := [tblA, tblMeta], primary_keys := [], has_metadata := true, version := 0 }

/-- The descriptor introspected for `A` in `grpAB`. -/
def osA : ObjectSchema := { name := "A", properties := [], primary_key := "" }

/-- A store with no metadata tables at all. -/
def grpInit : Group :=
  { tables := [], primary_keys := [], has_metadata := false, version := 0 }

/-- A store at stored version 1. -/
def grpV1 : Group :=
  { tables := [], primary_keys := [], has_metadata := true, version := 1 }

/-- A store at stored version 3. -/
def grpV3 : Group :=
  { tables := [], primary_keys := [], has_metadata := true, version := 3 }

/-- A target descriptor for `Person` with one matching property and one
property the physical table does not have. -/
def osTarget : ObjectSchema :=
  { name := "Person"
  , properties :=
      [ { name := "id", type := PropertyType.Int, object_type := ""
        , is_indexed := true, is_primary := false, table_column := 99 }
      , { name := "missing", type := PropertyType.Bool, object_type := ""
        , is_indexed := false, is_primary := false, table_column := 0 } ]
  , primary_key := "" }

/-! ### Helper lemmas -/

theorem strip_class_marker_eq_some {d rest : List Char}
    (h : strip_class_marker d = some rest) :
    d = 'c' :: 'l' :: 'a' :: 's' :: 's' :: '_' :: rest := by
  unfold strip_class_marker at h
  split at h
  · injection h with h; subst h; rfl
  · exact absurd h (by simp)

theorem encode_decode (s : String)
    (h : (object_type_for_table_name s).length ≠ 0) :
    table_name_for_object_type (object_type_for_table_name s) = s := by
  unfold object_type_for_table_name at *
  cases hm : strip_class_marker s.data with
  | none => rw [hm] at h; simp at h
  | some rest =>
      have hd := strip_class_marker_eq_some hm
      have hs : s = String.mk ('c' :: 'l' :: 'a' :: 's' :: 's' :: '_' :: rest) := by
        obtain ⟨d⟩ := s
        exact congrArg String.mk hd
      rw [hs]
      rfl

theorem markPrimary_cons_pos {p : Property} {ps : List Property} {pk : String}
    (h : (p.name == pk) = true) :
    markPrimary (p :: ps) pk = { p with is_primary := true } :: ps := by
  simp [markPrimary, h]

theorem markPrimary_cons_neg {p : Property} {ps : List Property} {pk : String}
    (h : ¬(p.name == pk) = true) :
    markPrimary (p :: ps) pk = p :: markPrimary ps pk := by
  simp [markPrimary, h]

theorem lookup_of_mem_decodable (g : Group) (t : Table) (ht : t ∈ g.tables)
    (h : (object_type_for_table_name t.name).length ≠ 0) :
    (table_for_object_type g (object_type_for_table_name t.name)).isSome = true := by
  unfold table_for_object_type
  rw [encode_decode t.name h]
  cases hf : g.tables.find? (fun x => x.name == t.name) with
  | some _ => rfl
  | none =>
      have := List.find?_eq_none.mp hf t ht
      simp at this

theorem introspectFrom_length (k : Nat) (cs : List Column) :
    (introspectFrom k cs).length = cs.length := by
  induction cs generalizing k with
  | nil => rfl
  | cons c cs ih => simp [introspectFrom, ih]

theorem introspectFrom_get (k : Nat) (cs : List Column) (i : Nat)
    (h : i < cs.length) (h' : i < (introspectFrom k cs).length) :
    (introspectFrom k cs).get ⟨i, h'⟩ = propertyOfColumn (k + i) (cs.get ⟨i, h⟩) := by
  induction cs generalizing k i with
  | nil => exact absurd h (by simp)
  | cons c cs ih =>
      cases i with
      | zero => rfl
      | succ j =>
          have hj : j < cs.length := by simpa using h
          have hj' : j < (introspectFrom (k + 1) cs).length := by
            rw [introspectFrom_length]; exact hj
          have := ih (k + 1) j hj hj'
          simpa [introspectFrom, Nat.add_assoc, Nat.add_comm 1 j] using this

theorem introspectFrom_not_primary (k : Nat) (cs : List Column) :
    ∀ p ∈ introspectFrom k cs, p.is_primary = false := by
  induction cs generalizing k with
  | nil => intro p hp; simp [introspectFrom] at hp
  | cons c cs ih =>
      intro p hp
      simp only [introspectFrom, List.mem_cons] at hp
      rcases hp with h | h
      · rw [h]; rfl
      · exact ih (k + 1) p h

theorem markPrimary_length (l : List Property) (pk : String) :
    (markPrimary l pk).length = l.length := by
  induction l with
  | nil => rfl
  | cons p ps ih =>
      unfold markPrimary
      split <;> simp [ih]

theorem markPrimary_get (l : List Property) (pk : String) (i : Nat)
    (h : i < l.length) (h' : i < (markPrimary l pk).length) :
    (markPrimary l pk).get ⟨i, h'⟩ = l.get ⟨i, h⟩ ∨
      (markPrimary l pk).get ⟨i, h'⟩ = { l.get ⟨i, h⟩ with is_primary := true } := by
  induction l generalizing i with
  | nil => exact absurd h (by simp)
  | cons p ps ih =>
      by_cases hname : (p.name == pk) = true
      · have hm : markPrimary (p :: ps) pk = { p with is_primary := true } :: ps :=
          markPrimary_cons_pos hname
        cases i with
        | zero => right; simp [hm]
        | succ j => left; simp [hm]
      · have hm : markPrimary (p :: ps) pk = p :: markPrimary ps pk :=
          markPrimary_cons_neg hname
        cases i with
        | zero => left; simp [hm]
        | succ j =>
            have hj : j < ps.length := by simpa using h
            have hj' : j < (markPrimary ps pk).length := by
              rw [markPrimary_length]; exact hj
            have := ih j hj hj'
            simpa [hm] using this

theorem markPrimary_countP (l : List Property) (pk : String)
    (hall : ∀ p ∈ l, p.is_primary = false)
    (hfind : (l.find? (fun p => p.name == pk)).isSome = true) :
    (markPrimary l pk).countP (fun p => p.name == pk && p.is_primary) = 1 := by
  induction l with
  | nil => simp [List.find?] at hfind
  | cons p ps ih =>
      by_cases hname : (p.name == pk) = true
      · have hm : markPrimary (p :: ps) pk = { p with is_primary := true } :: ps :=
          markPrimary_cons_pos hname
        rw [hm, List.countP_cons]
        have hzero : ps.countP (fun p => p.name == pk && p.is_primary) = 0 := by
          rw [List.countP_eq_zero]
          intro q hq
          have := hall q (List.mem_cons_of_mem p hq)
          simp [this]
        simp [hzero, hname]
      · have hm : markPrimary (p :: ps) pk = p :: markPrimary ps pk :=
          markPrimary_cons_neg hname
        have hfind' : (ps.find? (fun p => p.name == pk)).isSome = true := by
          rw [List.find?_cons_of_neg] at hfind
          · exact hfind
          · simpa using hname
        rw [hm, List.countP_cons]
        have hp0 : (p.name == pk && p.is_primary) = false := by
          simp [hname]
        simp [hp0, ih (fun q hq => hall q (List.mem_cons_of_mem p hq)) hfind']

theorem markPrimary_primary_name (l : List Property) (pk : String)
    (hall : ∀ p ∈ l, p.is_primary = false) :
    ∀ q ∈ markPrimary l pk, q.is_primary = true → q.name = pk := by
  induction l with
  | nil => intro q hq; simp [markPrimary] at hq
  | cons p ps ih =>
      by_cases hname : (p.name == pk) = true
      · have hm : markPrimary (p :: ps) pk = { p with is_primary := true } :: ps :=
          markPrimary_cons_pos hname
        rw [hm]
        intro q hq hqp
        rcases List.mem_cons.mp hq with h | h
        · rw [h]; exact eq_of_beq hname
        · exact absurd hqp (by simp [hall q (List.mem_cons_of_mem p h)])
      · have hm : markPrimary (p :: ps) pk = p :: markPrimary ps pk :=
          markPrimary_cons_neg hname
        rw [hm]
        intro q hq hqp
        rcases List.mem_cons.mp hq with h | h
        · exact absurd hqp (by simp [hall p (List.mem_cons_self p ps), h])
        · exact ih (fun r hr => hall r (List.mem_cons_of_mem p hr)) q h hqp

theorem ofTable_ok {g : Group} {name : String} {t : Table} {os : ObjectSchema}
    (h : ObjectSchema.ofTable g name t = .ok os) :
    os.name = name ∧
    os.primary_key = get_primary_key_for_object g name ∧
    (((get_primary_key_for_object g name).length = 0 ∧
        os.properties = introspectProperties t) ∨
      ((get_primary_key_for_object g name).length ≠ 0 ∧
        (property_for_name (introspectProperties t)
          (get_primary_key_for_object g name)).isSome = true ∧
        os.properties = markPrimary (introspectProperties t)
          (get_primary_key_for_object g name))) := by
  unfold ObjectSchema.ofTable at h
  by_cases hpk : (get_primary_key_for_object g name).length ≠ 0
  · rw [if_pos hpk] at h
    cases hf : property_for_name (introspectProperties t)
        (get_primary_key_for_object g name) with
    | none => rw [hf] at h; exact absurd h (by simp)
    | some q =>
        rw [hf] at h
        injection h with h
        subst h
        exact ⟨rfl, rfl, Or.inr ⟨hpk, by simp [hf], rfl⟩⟩
  · rw [if_neg hpk] at h
    injection h with h
    subst h
    push_neg at hpk
    exact ⟨rfl, rfl, Or.inl ⟨hpk, rfl⟩⟩

theorem ofTable_ok_fields {g : Group} {name : String} {t : Table}
    {os : ObjectSchema} (h : ObjectSchema.ofTable g name t = .ok os) :
    os.properties.length = t.columns.length ∧
    ∀ i (h1 : i < t.columns.length) (h2 : i < os.properties.length),
      os.properties.get ⟨i, h2⟩ = propertyOfColumn i (t.columns.get ⟨i, h1⟩) ∨
      os.properties.get ⟨i, h2⟩ =
        { propertyOfColumn i (t.columns.get ⟨i, h1⟩) with is_primary := true } := by
  obtain ⟨osn, props, ospk⟩ := os
  obtain ⟨-, -, hcase⟩ := ofTable_ok h
  have hintro_len : (introspectProperties t).length = t.columns.length :=
    introspectFrom_length 0 t.columns
  dsimp only at hcase ⊢
  rcases hcase with ⟨-, hprops⟩ | ⟨-, -, hprops⟩ <;> subst hprops
  · constructor
    · exact hintro_len
    · intro i h1 h2
      left
      have := introspectFrom_get 0 t.columns i h1 h2
      simpa [introspectProperties] using this
  · constructor
    · rw [markPrimary_length]; exact hintro_len
    · intro i h1 h2
      have h3 : i < (introspectProperties t).length := by
        rw [hintro_len]; exact h1
      have hmg := markPrimary_get (introspectProperties t)
        (get_primary_key_for_object g name) i h3 h2
      have hig := introspectFrom_get 0 t.columns i h1 h3
      rw [show (introspectProperties t).get ⟨i, h3⟩ =
            propertyOfColumn i (t.columns.get ⟨i, h1⟩) from by
        simpa [introspectProperties] using hig] at hmg
      exact hmg

theorem objectSchemaFromTables_names (g : Group) (ts : List Table)
    (hsub : ∀ t ∈ ts, t ∈ g.tables) (l : List ObjectSchema)
    (h : objectSchemaFromTables g ts = .ok l) :
    l.map (fun os => os.name) =
      (ts.filter (fun t => (object_type_for_table_name t.name).length ≠ 0)).map
        (fun t => object_type_for_table_name t.name) := by
  induction ts generalizing l with
  | nil =>
      simp only [objectSchemaFromTables] at h
      injection h with h
      subst h
      rfl
  | cons t ts ih =>
      simp only [objectSchemaFromTables] at h
      by_cases hname : (object_type_for_table_name t.name).length ≠ 0
      · rw [if_pos hname] at h
        split at h
        · split at h
          · exact Except.noConfusion h
          · split at h
            · exact Except.noConfusion h
            · rename_i x1 tbl htfo x2 s hof x3 rest hrest
              injection h with h
              subst h
              have hn := (ofTable_ok hof).1
              have ihr := ih (fun x hx => hsub x (List.mem_cons_of_mem t hx)) rest hrest
              simp [List.filter_cons, hname, hn, ihr]
        · rename_i x1 htfo
          have hl := lookup_of_mem_decodable g t (hsub t (List.mem_cons_self t ts)) hname
          rw [htfo] at hl
          simp at hl
      · rw [if_neg hname] at h
        have ihr := ih (fun x hx => hsub x (List.mem_cons_of_mem t hx)) l h
        simp [List.filter_cons, hname, ihr]

theorem find?_isSome_append {α : Type} (p : α → Bool) (l l' : List α)
    (h : (l.find? p).isSome = true) :
    ((l ++ l').find? p).isSome = true := by
  induction l with
  | nil => simp [List.find?] at h
  | cons a l ih =>
      cases hp : p a with
      | true => simp [List.find?_cons_of_pos _ hp]
      | false =>
          rw [List.find?_cons_of_neg _ (by simp [hp])] at h
          rw [List.cons_append, List.find?_cons_of_neg _ (by simp [hp])]
          exact ih h

theorem find?_append_right {α : Type} (p : α → Bool) (l l' : List α)
    (h : l.find? p = none) :
    (l ++ l').find? p = l'.find? p := by
  induction l with
  | nil => rfl
  | cons a l ih =>
      cases hp : p a with
      | true => rw [List.find?_cons_of_pos _ hp] at h; exact Option.noConfusion h
      | false =>
          rw [List.find?_cons_of_neg _ (by simp [hp])] at h
          rw [List.cons_append, List.find?_cons_of_neg _ (by simp [hp])]
          exact ih h

theorem replace_table_find?_isSome (ts : List Table) (tname : String)
    (t2 : Table) (hname : t2.name = tname) (q : String)
    (h : (ts.find? (fun t => t.name == q)).isSome = true) :
    ((replace_table ts tname t2).find? (fun t => t.name == q)).isSome = true := by
  induction ts with
  | nil => simp [List.find?] at h
  | cons t ts ih =>
      have hrt : replace_table (t :: ts) tname t2 =
          (if t.name == tname then t2 else t) :: replace_table ts tname t2 := rfl
      rw [hrt]
      by_cases ht : (t.name == tname) = true
      · have hh : (if t.name == tname then t2 else t) = t2 := if_pos ht
        have hn2 : t2.name = t.name := by rw [hname]; exact (eq_of_beq ht).symm
        rw [hh]
        cases hq : (t.name == q) with
        | true =>
            rw [@List.find?_cons_of_pos Table (fun x => x.name == q) t2
              (replace_table ts tname t2)
              (show (t2.name == q) = true by rw [hn2]; exact hq)]
            rfl
        | false =>
            rw [List.find?_cons_of_neg _ (by simp [hq])] at h
            rw [@List.find?_cons_of_neg Table (fun x => x.name == q) t2
              (replace_table ts tname t2)
              (show ¬(t2.name == q) = true by rw [hn2]; simp [hq])]
            exact ih h
      · have hh : (if t.name == tname then t2 else t) = t := if_neg ht
        rw [hh]
        cases hq : (t.name == q) with
        | true =>
            rw [@List.find?_cons_of_pos Table (fun x => x.name == q) t
              (replace_table ts tname t2) hq]
            rfl
        | false =>
            rw [List.find?_cons_of_neg _ (by simp [hq])] at h
            rw [List.find?_cons_of_neg _ (by simp [hq])]
            exact ih h

theorem create_one_table_meta (g : Group) (os : ObjectSchema) (ue : Bool) :
    (create_one_table g os ue).1.has_metadata = g.has_metadata ∧
    (create_one_table g os ue).1.version = g.version ∧
    (create_one_table g os ue).1.primary_keys = g.primary_keys := by
  unfold create_one_table
  split
  · exact ⟨rfl, rfl, rfl⟩
  · split
    · exact ⟨rfl, rfl, rfl⟩
    · split
      · exact ⟨rfl, rfl, rfl⟩
      · exact ⟨rfl, rfl, rfl⟩

theorem create_one_table_true_no_error (g : Group) (os : ObjectSchema) :
    (create_one_table g os true).2.2 = none := by
  unfold create_one_table
  split
  · rfl
  · rfl

theorem create_tables_cons (g : Group) (os : ObjectSchema)
    (rest : List ObjectSchema) (ue : Bool) :
    create_tables g (os :: rest) ue =
      match create_one_table g os ue with
      | (g1, ch1, some e) => (g1, ch1, some e)
      | (g1, ch1, none) =>
          match create_tables g1 rest ue with
          | (g2, ch2, err) => (g2, ch1 || ch2, err) := rfl

theorem create_tables_meta (g : Group) (S : List ObjectSchema) (ue : Bool) :
    (create_tables g S ue).1.has_metadata = g.has_metadata ∧
    (create_tables g S ue).1.version = g.version ∧
    (create_tables g S ue).1.primary_keys = g.primary_keys := by
  induction S generalizing g with
  | nil => exact ⟨rfl, rfl, rfl⟩
  | cons os rest ih =>
      obtain ⟨h1, h2, h3⟩ := create_one_table_meta g os ue
      unfold create_tables
      split
      · rename_i g1 ch1 e heq
        rw [heq] at h1 h2 h3
        exact ⟨h1, h2, h3⟩
      · rename_i g1 ch1 heq
        rw [heq] at h1 h2 h3
        obtain ⟨i1, i2, i3⟩ := ih g1
        split
        · rename_i g2 ch2 err heq2
          rw [heq2] at i1 i2 i3
          exact ⟨i1.trans h1, i2.trans h2, i3.trans h3⟩

theorem create_one_table_keeps_lookup (g : Group) (os : ObjectSchema)
    (ue : Bool) (n : String)
    (h : (table_for_object_type g n).isSome = true) :
    (table_for_object_type (create_one_table g os ue).1 n).isSome = true := by
  unfold create_one_table
  split
  · exact find?_isSome_append _ _ _ h
  · rename_i t htfo
    split
    · exact replace_table_find?_isSome g.tables t.name (update_table t os) rfl
        (table_name_for_object_type n) h
    · split
      · exact h
      · exact h

theorem create_one_table_ensures (g : Group) (os : ObjectSchema) (ue : Bool) :
    (table_for_object_type (create_one_table g os ue).1 os.name).isSome = true := by
  unfold create_one_table
  split
  · rename_i heq
    unfold table_for_object_type at heq ⊢
    show ((g.tables ++ [table_for_schema os]).find?
      (fun t => t.name == table_name_for_object_type os.name)).isSome = true
    rw [find?_append_right _ _ _ heq]
    rw [@List.find?_cons_of_pos Table
      (fun x => x.name == table_name_for_object_type os.name)
      (table_for_schema os) []
      (show ((table_for_schema os).name ==
        table_name_for_object_type os.name) = true from beq_self_eq_true _)]
    rfl
  · rename_i t heq
    have hs : (g.tables.find?
        (fun x => x.name == table_name_for_object_type os.name)).isSome = true := by
      unfold table_for_object_type at heq
      rw [heq]
      rfl
    split
    · exact replace_table_find?_isSome g.tables t.name (update_table t os) rfl
        (table_name_for_object_type os.name) hs
    · split
      · rw [show table_for_object_type (g, false,
            (none : Option ObjectStoreValidationException)).1 os.name =
            table_for_object_type g os.name from rfl, heq]
        rfl
      · rw [show table_for_object_type g os.name = some t from heq]
        rfl

theorem create_tables_keeps_lookup (g : Group) (S : List ObjectSchema)
    (ue : Bool) (n : String)
    (h : (table_for_object_type g n).isSome = true) :
    (table_for_object_type (create_tables g S ue).1 n).isSome = true := by
  induction S generalizing g with
  | nil => exact h
  | cons os rest ih =>
      have h1 := create_one_table_keeps_lookup g os ue n h
      unfold create_tables
      split
      · rename_i g1 ch1 e heq
        rw [heq] at h1
        exact h1
      · rename_i g1 ch1 heq
        rw [heq] at h1
        have h2 := ih g1 h1
        split
        · rename_i g2 ch2 err heq2
          rw [heq2] at h2
          exact h2

theorem create_tables_ensures_all (g : Group) (S : List ObjectSchema)
    (ue : Bool) (hok : (create_tables g S ue).2.2 = none) :
    ∀ os ∈ S,
      (table_for_object_type (create_tables g S ue).1 os.name).isSome = true := by
  induction S generalizing g with
  | nil => intro os hos; simp at hos
  | cons os0 rest ih =>
      obtain ⟨g1, ch1, err1, hr1⟩ : ∃ a b c, create_one_table g os0 ue = (a, b, c) :=
        ⟨_, _, _, rfl⟩
      cases err1 with
      | some e =>
          rw [show create_tables g (os0 :: rest) ue = (g1, ch1, some e) from by
            rw [create_tables_cons, hr1]] at hok
          simp at hok
      | none =>
          have hstep : create_tables g (os0 :: rest) ue =
              ((create_tables g1 rest ue).1,
               ch1 || (create_tables g1 rest ue).2.1,
               (create_tables g1 rest ue).2.2) := by
            rw [create_tables_cons, hr1]
          rw [hstep] at hok ⊢
          intro os hos
          rcases List.mem_cons.mp hos with h | h
          · subst h
            have he := create_one_table_ensures g os ue
            rw [hr1] at he
            exact create_tables_keeps_lookup g1 rest ue _ he
          · exact ih g1 hok os h

theorem create_tables_true_no_error (g : Group) (S : List ObjectSchema) :
    (create_tables g S true).2.2 = none := by
  induction S generalizing g with
  | nil => rfl
  | cons os rest ih =>
      obtain ⟨g1, ch1, err1, hr1⟩ : ∃ a b c, create_one_table g os true = (a, b, c) :=
        ⟨_, _, _, rfl⟩
      have herr : err1 = none := by
        have h0 := create_one_table_true_no_error g os
        rw [hr1] at h0
        exact h0
      subst herr
      rw [show create_tables g (os :: rest) true =
          ((create_tables g1 rest true).1,
           ch1 || (create_tables g1 rest true).2.1,
           (create_tables g1 rest true).2.2) from by
        rw [create_tables_cons, hr1]]
      exact ih g1

theorem create_one_table_false_noop (g : Group) (os : ObjectSchema)
    (h : (table_for_object_type g os.name).isSome = true) :
    (create_one_table g os false).1 = g ∧
    (create_one_table g os false).2.1 = false := by
  unfold create_one_table
  split
  · rename_i heq
    rw [heq] at h
    simp at h
  · split
    · rename_i hfalse
      exact absurd hfalse (by simp)
    · split
      · exact ⟨rfl, rfl⟩
      · exact ⟨rfl, rfl⟩

theorem create_tables_false_noop (g : Group) (S : List ObjectSchema)
    (h : ∀ os ∈ S, (table_for_object_type g os.name).isSome = true) :
    (create_tables g S false).1 = g ∧ (create_tables g S false).2.1 = false := by
  induction S with
  | nil => exact ⟨rfl, rfl⟩
  | cons os rest ih =>
      obtain ⟨g1, ch1, err1, hr1⟩ : ∃ a b c, create_one_table g os false = (a, b, c) :=
        ⟨_, _, _, rfl⟩
      obtain ⟨hg, hch⟩ := create_one_table_false_noop g os
        (h os (List.mem_cons_self os rest))
      rw [hr1] at hg hch
      cases err1 with
      | some e =>
          rw [show create_tables g (os :: rest) false = (g1, ch1, some e) from by
            rw [create_tables_cons, hr1]]
          exact ⟨hg, hch⟩
      | none =>
          have hg1 : g1 = g := hg
          have hch1 : ch1 = false := hch
          obtain ⟨ig, ich⟩ := ih (fun x hx => h x (List.mem_cons_of_mem os hx))
          rw [create_tables_cons, hr1]
          refine ⟨?_, ?_⟩
          · show (create_tables g1 rest false).1 = g
            rw [hg1]
            exact ig
          · show (ch1 || (create_tables g1 rest false).2.1) = false
            simp [hg1, hch1, ich]

theorem create_metadata_of_has (g : Group) (h : g.has_metadata = true) :
    create_metadata_tables g = (g, false) := by
  unfold create_metadata_tables
  rw [if_pos h]

theorem create_metadata_of_not_has (g : Group) (h : g.has_metadata = false) :
    create_metadata_tables g =
      ({ g with has_metadata := true, version := NotVersioned }, true) := by
  unfold create_metadata_tables
  rw [if_neg (by rw [h]; exact Bool.false_ne_true)]

theorem get_schema_version_create_metadata (g : Group) :
    get_schema_version (create_metadata_tables g).1 = get_schema_version g := by
  cases hmd : g.has_metadata with
  | true => rw [create_metadata_of_has g hmd]
  | false =>
      rw [create_metadata_of_not_has g hmd]
      unfold get_schema_version
      rw [hmd]
      rfl

theorem create_metadata_fst_has (g : Group) :
    (create_metadata_tables g).1.has_metadata = true := by
  unfold create_metadata_tables
  split
  · rename_i h
    exact h
  · rfl

theorem get_schema_version_of_has (g : Group) (h : g.has_metadata = true) :
    get_schema_version g = g.version := by
  unfold get_schema_version
  rw [h]
  simp

theorem update_init_eq (g : Group) (v : Nat) (S : List ObjectSchema)
    (hgv : get_schema_version g = NotVersioned) :
    update_realm_with_schema g v S =
      { group := set_schema_version
          (create_tables (create_metadata_tables g).1 S true).1 v
      , changed := true
      , error := none
      , events :=
          (if (create_metadata_tables g).2 then [Event.metadataCreated] else []) ++
            [Event.tablesReconciled true
              (create_tables (create_metadata_tables g).1 S true).2.1,
             Event.versionSet v] } := by
  simp only [update_realm_with_schema]
  rw [get_schema_version_create_metadata g, hgv, if_pos rfl]

theorem update_uptodate_eq (g : Group) (v : Nat) (S : List ObjectSchema)
    (hgv : get_schema_version g = v) (hv : v ≠ NotVersioned) :
    update_realm_with_schema g v S =
      { group := (create_tables (create_metadata_tables g).1 S false).1
      , changed := (create_metadata_tables g).2 ||
          (create_tables (create_metadata_tables g).1 S false).2.1
      , error := ((create_tables (create_metadata_tables g).1 S false).2.2).map
          UpdateError.validation
      , events :=
          (if (create_metadata_tables g).2 then [Event.metadataCreated] else []) ++
            [Event.tablesReconciled false
              (create_tables (create_metadata_tables g).1 S false).2.1] } := by
  simp only [update_realm_with_schema]
  rw [get_schema_version_create_metadata g, hgv, if_neg hv, if_pos rfl]

theorem update_reject_eq (g : Group) (v : Nat) (S : List ObjectSchema)
    (hgt : v < get_schema_version g)
    (hnv : get_schema_version g ≠ NotVersioned) :
    update_realm_with_schema g v S =
      { group := (create_metadata_tables g).1
      , changed := (create_metadata_tables g).2
      , error := some (UpdateError.ordering
          ObjectStoreExceptionKind.RealmVersionGreaterThanSchemaVersion)
      , events :=
          if (create_metadata_tables g).2 then [Event.metadataCreated] else [] } := by
  simp only [update_realm_with_schema]
  rw [get_schema_version_create_metadata g, if_neg hnv,
    if_neg (by omega : ¬get_schema_version g = v), if_pos hgt]

theorem update_migrate_eq (g : Group) (v : Nat) (S : List ObjectSchema)
    (hlt : get_schema_version g < v)
    (hnv : get_schema_version g ≠ NotVersioned) :
    update_realm_with_schema g v S =
      { group := set_schema_version
          (create_tables (create_metadata_tables g).1 S true).1 v
      , changed := true
      , error := none
      , events :=
          (if (create_metadata_tables g).2 then [Event.metadataCreated] else []) ++
            [Event.tablesReconciled true
              (create_tables (create_metadata_tables g).1 S true).2.1,
             Event.migrationInvoked, Event.versionSet v] } := by
  simp only [update_realm_with_schema]
  rw [get_schema_version_create_metadata g, if_neg hnv,
    if_neg (by omega : ¬get_schema_version g = v),
    if_neg (by omega : ¬v < get_schema_version g)]

theorem update_success_state (g : Group) (v : Nat) (S : List ObjectSchema)
    (hv : v ≠ NotVersioned)
    (h : (update_realm_with_schema g v S).error = none) :
    (update_realm_with_schema g v S).group.has_metadata = true ∧
    (update_realm_with_schema g v S).group.version = v ∧
    ∀ os ∈ S,
      (table_for_object_type (update_realm_with_schema g v S).group os.name).isSome
        = true := by
  by_cases h1 : get_schema_version g = NotVersioned
  · rw [update_init_eq g v S h1]
    refine ⟨?_, rfl, ?_⟩
    · show (create_tables (create_metadata_tables g).1 S true).1.has_metadata = true
      rw [(create_tables_meta _ S true).1]
      exact create_metadata_fst_has g
    · intro os hos
      exact create_tables_ensures_all (create_metadata_tables g).1 S true
        (create_tables_true_no_error _ S) os hos
  · by_cases h2 : get_schema_version g = v
    · rw [update_uptodate_eq g v S h2 hv] at h ⊢
      have hok : (create_tables (create_metadata_tables g).1 S false).2.2 = none :=
        Option.map_eq_none'.mp h
      refine ⟨?_, ?_, ?_⟩
      · show (create_tables (create_metadata_tables g).1 S false).1.has_metadata = true
        rw [(create_tables_meta _ S false).1]
        exact create_metadata_fst_has g
      · show (create_tables (create_metadata_tables g).1 S false).1.version = v
        rw [(create_tables_meta _ S false).2.1]
        have hm := create_metadata_fst_has g
        have := get_schema_version_of_has (create_metadata_tables g).1 hm
        rw [← this, get_schema_version_create_metadata g, h2]
      · intro os hos
        exact create_tables_ensures_all (create_metadata_tables g).1 S false hok os hos
    · by_cases h3 : get_schema_version g < v
      · rw [update_migrate_eq g v S h3 h1]
        refine ⟨?_, rfl, ?_⟩
        · show (create_tables (create_metadata_tables g).1 S true).1.has_metadata = true
          rw [(create_tables_meta _ S true).1]
          exact create_metadata_fst_has g
        · intro os hos
          exact create_tables_ensures_all (create_metadata_tables g).1 S true
            (create_tables_true_no_error _ S) os hos
      · rw [update_reject_eq g v S (by omega) h1] at h
        exact absurd h (by simp)

/-! ### Claims about the ObjectSchema constructor -/

/-- C3: when the stored primary-key name for a type is non-empty but no
introspected property of that name exists, the constructor fails with a
validation error whose error list identifies the missing primary-key
property name and whose `object_type` identifies the owning type; the
`Except.error` result means no partially constructed descriptor is
considered valid. -/
theorem missing_primary_key_fails (g : Group) (name : String) (t : Table)
    (h1 : (get_primary_key_for_object g name).length ≠ 0)
    (h2 : property_for_name (introspectProperties t)
            (get_primary_key_for_object g name) = none) :
    ObjectSchema.ofTable g name t =
      .error { validation_errors :=
                 ["No property matching primary key '" ++
                    get_primary_key_for_object g name ++ "'"]
             , object_type := name } := by
  simp only [ObjectSchema.ofTable]
  rw [if_pos h1, h2]

theorem missing_primary_key_fails_witness :
    ObjectSchema.ofTable grpUser "User" tblUser =
      .error { validation_errors :=
                 ["No property matching primary key '" ++
                    get_primary_key_for_object grpUser "User" ++ "'"]
             , object_type := "User" } :=
  missing_primary_key_fails grpUser "User" tblUser (by decide) (by rfl)

/-- C4: every successfully constructed descriptor has, at each column
position, a property whose name and primitive type are copied from the
column, whose `is_indexed` equals the table's search-index metadata,
whose `table_column` equals the position, and whose `object_type` is the
decoded logical name of the link target exactly for object-link and
link-list columns and the empty string otherwise. -/
theorem property_fields_from_column (g : Group) (name : String) (t : Table)
    (os : ObjectSchema) (h : ObjectSchema.ofTable g name t = .ok os) :
    os.properties.length = t.columns.length ∧
    ∀ col (h1 : col < t.columns.length) (h2 : col < os.properties.length),
      (os.properties.get ⟨col, h2⟩).name = (t.columns.get ⟨col, h1⟩).name ∧
      (os.properties.get ⟨col, h2⟩).type = (t.columns.get ⟨col, h1⟩).type ∧
      (os.properties.get ⟨col, h2⟩).is_indexed =
        (t.columns.get ⟨col, h1⟩).has_search_index ∧
      (os.properties.get ⟨col, h2⟩).table_column = col ∧
      (os.properties.get ⟨col, h2⟩).object_type =
        (if (t.columns.get ⟨col, h1⟩).type == PropertyType.Object ||
            (t.columns.get ⟨col, h1⟩).type == PropertyType.Array then
           object_type_for_table_name (t.columns.get ⟨col, h1⟩).link_target
         else "") := by
  obtain ⟨hlen, hget⟩ := ofTable_ok_fields h
  refine ⟨hlen, fun col h1 h2 => ?_⟩
  rcases hget col h1 h2 with heq | heq <;>
    rw [heq] <;> exact ⟨rfl, rfl, rfl, rfl, rfl⟩

theorem property_fields_from_column_witness :
    (osPerson.properties.get ⟨1, by decide⟩).name =
      (tblPerson.columns.get ⟨1, by decide⟩).name ∧
    (osPerson.properties.get ⟨1, by decide⟩).type =
      (tblPerson.columns.get ⟨1, by decide⟩).type ∧
    (osPerson.properties.get ⟨1, by decide⟩).is_indexed =
      (tblPerson.columns.get ⟨1, by decide⟩).has_search_index ∧
    (osPerson.properties.get ⟨1, by decide⟩).table_column = 1 ∧
    (osPerson.properties.get ⟨1, by decide⟩).object_type =
      (if (tblPerson.columns.get ⟨1, by decide⟩).type == PropertyType.Object ||
          (tblPerson.columns.get ⟨1, by decide⟩).type == PropertyType.Array then
         object_type_for_table_name (tblPerson.columns.get ⟨1, by decide⟩).link_target
       else "") :=
  (property_fields_from_column grpDemo "Person" tblPerson osPerson (by rfl)).2
    1 (by decide) (by decide)

/-- C10: an introspected descriptor has one property per physical column
and the property at list position `i` resolves to column `i`. -/
theorem table_column_matches_position (g : Group) (name : String) (t : Table)
    (os : ObjectSchema) (h : ObjectSchema.ofTable g name t = .ok os) :
    os.properties.length = t.columns.length ∧
    ∀ i (h2 : i < os.properties.length),
      (os.properties.get ⟨i, h2⟩).table_column = i := by
  obtain ⟨hlen, hget⟩ := ofTable_ok_fields h
  refine ⟨hlen, fun i h2 => ?_⟩
  have h1 : i < t.columns.length := by rw [← hlen]; exact h2
  rcases hget i h1 h2 with heq | heq <;> rw [heq] <;> rfl

theorem table_column_matches_position_witness :
    (osPerson.properties.get ⟨0, by decide⟩).table_column = 0 :=
  (table_column_matches_position grpDemo "Person" tblPerson osPerson (by rfl)).2
    0 (by decide)

/-- C9: in a successfully constructed descriptor, a non-empty
`primary_key` names exactly one property that is marked primary (and
every primary-marked property bears that name), while an empty
`primary_key` leaves no property marked primary. -/
theorem primary_key_invariant (g : Group) (name : String) (t : Table)
    (os : ObjectSchema) (h : ObjectSchema.ofTable g name t = .ok os) :
    (os.primary_key.length ≠ 0 →
       os.properties.countP
         (fun p => p.name == os.primary_key && p.is_primary) = 1 ∧
       ∀ p ∈ os.properties, p.is_primary = true → p.name = os.primary_key) ∧
    (os.primary_key.length = 0 →
       ∀ p ∈ os.properties, p.is_primary = false) := by
  obtain ⟨-, hpk, hcase⟩ := ofTable_ok h
  have hall := introspectFrom_not_primary 0 t.columns
  rcases hcase with ⟨h0, hprops⟩ | ⟨h0, hfind, hprops⟩
  · constructor
    · intro hne
      rw [hpk] at hne
      exact absurd h0 hne
    · intro _ p hp
      rw [hprops] at hp
      exact hall p hp
  · constructor
    · intro _
      rw [hprops, hpk]
      constructor
      · exact markPrimary_countP (introspectProperties t)
          (get_primary_key_for_object g name) hall hfind
      · exact markPrimary_primary_name (introspectProperties t)
          (get_primary_key_for_object g name) hall
    · intro h0'
      rw [hpk] at h0'
      exact absurd h0' h0

theorem primary_key_invariant_witness :
    osPerson.properties.countP
      (fun p => p.name == osPerson.primary_key && p.is_primary) = 1 :=
  ((primary_key_invariant grpDemo "Person" tblPerson osPerson (by rfl)).1
    (by decide)).1

/-- C5: bulk introspection produces exactly one descriptor per physical
table whose name decodes to a non-empty logical name, skips every other
table, and returns the descriptors in physical table iteration order:
the descriptor names are the decoded names of exactly the decodable
tables, in order. -/
theorem schema_from_group_order (g : Group) (l : List ObjectSchema)
    (h : object_schema_from_group g = .ok l) :
    l.length = (g.tables.filter
        (fun t => (object_type_for_table_name t.name).length ≠ 0)).length ∧
    l.map (fun os => os.name) =
      (g.tables.filter
        (fun t => (object_type_for_table_name t.name).length ≠ 0)).map
        (fun t => object_type_for_table_name t.name) := by
  have hm := objectSchemaFromTables_names g g.tables (fun _ ht => ht) l h
  refine ⟨?_, hm⟩
  have := congrArg List.length hm
  simpa using this

theorem schema_from_group_order_witness :
    [osA].length = (grpAB.tables.filter
        (fun t => (object_type_for_table_name t.name).length ≠ 0)).length ∧
    [osA].map (fun os => os.name) =
      (grpAB.tables.filter
        (fun t => (object_type_for_table_name t.name).length ≠ 0)).map
        (fun t => object_type_for_table_name t.name) :=
  schema_from_group_order grpAB [osA] (by rfl)

theorem migration_invocations_append (a b : List Event) :
    migration_invocations (a ++ b) =
      migration_invocations a + migration_invocations b :=
  List.countP_append _ _ _

theorem migration_invocations_ev1 (b : Bool) :
    migration_invocations (if b then [Event.metadataCreated] else []) = 0 := by
  cases b <;> rfl

/-! ### Claims about the schema coordinator (spec-modelled) -/

/-- C2: `is_migration_required` returns `false` exactly when the stored
version equals the target, `true` when the stored version is the
unversioned sentinel or strictly below the target, and fails with the
structured `RealmVersionGreaterThanSchemaVersion` kind when the stored
version (not the sentinel) is strictly above the target. -/
theorem migration_required_trichotomy (g : Group) (v : Nat)
    (hv : v ≠ NotVersioned) :
    (is_migration_required g v = .ok false ↔ get_schema_version g = v) ∧
    (get_schema_version g = NotVersioned ∨ get_schema_version g < v →
      is_migration_required g v = .ok true) ∧
    (get_schema_version g ≠ NotVersioned ∧ v < get_schema_version g →
      is_migration_required g v =
        .error ObjectStoreExceptionKind.RealmVersionGreaterThanSchemaVersion) := by
  simp only [is_migration_required]
  by_cases h1 : get_schema_version g = NotVersioned
  · rw [if_pos h1]
    refine ⟨⟨fun hok => ?_, fun heq => ?_⟩, fun _ => rfl, ?_⟩
    · simp at hok
    · exact absurd (heq.symm.trans h1) hv
    · rintro ⟨hn, -⟩
      exact absurd h1 hn
  · rw [if_neg h1]
    by_cases h2 : get_schema_version g < v
    · rw [if_pos h2]
      refine ⟨⟨fun hok => ?_, fun heq => ?_⟩, fun _ => rfl, ?_⟩
      · simp at hok
      · exact absurd heq (by omega)
      · rintro ⟨-, hgt⟩
        exact absurd hgt (by omega)
    · by_cases h3 : get_schema_version g = v
      · rw [if_neg h2, if_pos h3]
        refine ⟨⟨fun _ => h3, fun _ => rfl⟩, ?_, ?_⟩
        · rintro (hn | hlt)
          · exact absurd hn h1
          · exact absurd hlt h2
        · rintro ⟨-, hgt⟩
          exact absurd hgt (by omega)
      · rw [if_neg h2, if_neg h3]
        refine ⟨⟨fun hok => ?_, fun heq => absurd heq h3⟩, ?_, fun _ => rfl⟩
        · simp at hok
        · rintro (hn | hlt)
          · exact absurd hn h1
          · exact absurd hlt h2

theorem migration_required_trichotomy_witness :
    (is_migration_required grpV3 3 = .ok false ↔ get_schema_version grpV3 = 3) ∧
    (get_schema_version grpV3 = NotVersioned ∨ get_schema_version grpV3 < 3 →
      is_migration_required grpV3 3 = .ok true) ∧
    (get_schema_version grpV3 ≠ NotVersioned ∧ 3 < get_schema_version grpV3 →
      is_migration_required grpV3 3 =
        .error ObjectStoreExceptionKind.RealmVersionGreaterThanSchemaVersion) :=
  migration_required_trichotomy grpV3 3 (by decide)

/-- C1: on a store with no metadata tables, `get_schema_version` reads the
unversioned sentinel, and `update_realm_with_schema` performs first-time
initialization: it reconciles the tables of the target schema with
`update_existing = true` (every target table exists afterwards), sets the
stored version to the requested version, and never invokes the migration
callback. -/
theorem first_time_initialization (g : Group) (v : Nat) (S : List ObjectSchema)
    (h : g.has_metadata = false) :
    get_schema_version g = NotVersioned ∧
    (update_realm_with_schema g v S).error = none ∧
    get_schema_version (update_realm_with_schema g v S).group = v ∧
    (∀ os ∈ S,
      (table_for_object_type (update_realm_with_schema g v S).group os.name).isSome
        = true) ∧
    (∃ ch, Event.tablesReconciled true ch ∈ (update_realm_with_schema g v S).events) ∧
    migration_invocations (update_realm_with_schema g v S).events = 0 := by
  have hgv : get_schema_version g = NotVersioned := by
    unfold get_schema_version
    rw [h]
    simp
  refine ⟨hgv, ?_⟩
  rw [update_init_eq g v S hgv]
  have hbm : (create_metadata_tables g).2 = true := by
    rw [create_metadata_of_not_has g h]
  refine ⟨rfl, ?_, ?_, ?_, ?_⟩
  · show get_schema_version (set_schema_version
      (create_tables (create_metadata_tables g).1 S true).1 v) = v
    have hmd : (create_tables (create_metadata_tables g).1 S true).1.has_metadata
        = true := by
      rw [(create_tables_meta _ S true).1]
      exact create_metadata_fst_has g
    unfold get_schema_version set_schema_version
    simp only [hmd]
    simp
  · intro os hos
    exact create_tables_ensures_all (create_metadata_tables g).1 S true
      (create_tables_true_no_error _ S) os hos
  · exact ⟨(create_tables (create_metadata_tables g).1 S true).2.1,
      by rw [hbm]; simp⟩
  · rw [hbm, migration_invocations_append]
    rfl

theorem first_time_initialization_witness :
    get_schema_version grpInit = NotVersioned ∧
    (update_realm_with_schema grpInit 5 [osA]).error = none ∧
    get_schema_version (update_realm_with_schema grpInit 5 [osA]).group = 5 ∧
    (∀ os ∈ [osA],
      (table_for_object_type (update_realm_with_schema grpInit 5 [osA]).group
        os.name).isSome = true) ∧
    (∃ ch, Event.tablesReconciled true ch ∈
      (update_realm_with_schema grpInit 5 [osA]).events) ∧
    migration_invocations (update_realm_with_schema grpInit 5 [osA]).events = 0 :=
  first_time_initialization grpInit 5 [osA] (by rfl)

/-- C7: in every `update_realm_with_schema` call the migration callback is
invoked at most once; it is invoked exactly once precisely in the
migration case (stored version strictly below the requested version and
not the unversioned sentinel); and when it is invoked, the event trace
places the invocation immediately after the reconciliation with
`update_existing = true` and immediately before the version write. -/
theorem migration_callback_protocol (g : Group) (v : Nat)
    (S : List ObjectSchema) :
    migration_invocations (update_realm_with_schema g v S).events ≤ 1 ∧
    (migration_invocations (update_realm_with_schema g v S).events = 1 ↔
      (get_schema_version g ≠ NotVersioned ∧ get_schema_version g < v)) ∧
    (migration_invocations (update_realm_with_schema g v S).events = 1 →
      ∃ pre ch, (update_realm_with_schema g v S).events =
        pre ++ [Event.tablesReconciled true ch, Event.migrationInvoked,
          Event.versionSet v]) := by
  by_cases h1 : get_schema_version g = NotVersioned
  · rw [update_init_eq g v S h1]
    have hc : migration_invocations
        ((if (create_metadata_tables g).2 then [Event.metadataCreated] else []) ++
          [Event.tablesReconciled true
            (create_tables (create_metadata_tables g).1 S true).2.1,
           Event.versionSet v]) = 0 := by
      rw [migration_invocations_append, migration_invocations_ev1]
      rfl
    rw [hc]
    exact ⟨by omega, ⟨fun h0 => absurd h0 (by omega),
      fun hcond => absurd h1 hcond.1⟩, fun h0 => absurd h0 (by omega)⟩
  · by_cases h2 : get_schema_version g = v
    · rw [update_uptodate_eq g v S h2 (fun hveq => h1 (h2.trans hveq))]
      have hc : migration_invocations
          ((if (create_metadata_tables g).2 then [Event.metadataCreated] else []) ++
            [Event.tablesReconciled false
              (create_tables (create_metadata_tables g).1 S false).2.1]) = 0 := by
        rw [migration_invocations_append, migration_invocations_ev1]
        rfl
      rw [hc]
      exact ⟨by omega, ⟨fun h0 => absurd h0 (by omega),
        fun hcond => absurd h2 (by omega)⟩, fun h0 => absurd h0 (by omega)⟩
    · by_cases h3 : get_schema_version g < v
      · rw [update_migrate_eq g v S h3 h1]
        have hc : migration_invocations
            ((if (create_metadata_tables g).2 then [Event.metadataCreated] else []) ++
              [Event.tablesReconciled true
                (create_tables (create_metadata_tables g).1 S true).2.1,
               Event.migrationInvoked, Event.versionSet v]) = 1 := by
          rw [migration_invocations_append, migration_invocations_ev1]
          rfl
        rw [hc]
        refine ⟨by omega, ⟨fun _ => ⟨h1, h3⟩, fun _ => rfl⟩, fun _ => ?_⟩
        exact ⟨_, _, rfl⟩
      · rw [update_reject_eq g v S (by omega) h1]
        have hc : migration_invocations
            (if (create_metadata_tables g).2 then [Event.metadataCreated] else [])
            = 0 := migration_invocations_ev1 _
        rw [hc]
        exact ⟨by omega, ⟨fun h0 => absurd h0 (by omega),
          fun hcond => absurd hcond.2 (by omega)⟩, fun h0 => absurd h0 (by omega)⟩

theorem migration_callback_protocol_witness :
    migration_invocations (update_realm_with_schema grpV1 2 []).events = 1 ∧
    ∃ pre ch, (update_realm_with_schema grpV1 2 []).events =
      pre ++ [Event.tablesReconciled true ch, Event.migrationInvoked,
        Event.versionSet 2] := by
  have h := migration_callback_protocol grpV1 2 []
  have hc : migration_invocations (update_realm_with_schema grpV1 2 []).events = 1 :=
    h.2.1.mpr (by decide)
  exact ⟨hc, h.2.2 hc⟩

/-- C6: if `update_realm_with_schema` succeeds, an immediately repeated
call with the same version and target schema leaves the store state
exactly as it was, reports no change, and does not invoke the migration
callback. -/
theorem update_idempotent (g : Group) (v : Nat) (S : List ObjectSchema)
    (hv : v ≠ NotVersioned)
    (h : (update_realm_with_schema g v S).error = none) :
    (update_realm_with_schema (update_realm_with_schema g v S).group v S).group =
      (update_realm_with_schema g v S).group ∧
    (update_realm_with_schema (update_realm_with_schema g v S).group v S).changed
      = false ∧
    migration_invocations
      (update_realm_with_schema
        (update_realm_with_schema g v S).group v S).events = 0 := by
  obtain ⟨hmd, hver, hlook⟩ := update_success_state g v S hv h
  have hgv1 : get_schema_version (update_realm_with_schema g v S).group = v := by
    rw [get_schema_version_of_has _ hmd, hver]
  have hbm2 : create_metadata_tables (update_realm_with_schema g v S).group =
      ((update_realm_with_schema g v S).group, false) :=
    create_metadata_of_has _ hmd
  obtain ⟨hg, hch⟩ := create_tables_false_noop
    (update_realm_with_schema g v S).group S hlook
  rw [update_uptodate_eq _ v S hgv1 hv]
  refine ⟨?_, ?_, ?_⟩
  · show (create_tables (create_metadata_tables
        (update_realm_with_schema g v S).group).1 S false).1 =
      (update_realm_with_schema g v S).group
    rw [hbm2]
    exact hg
  · show ((create_metadata_tables (update_realm_with_schema g v S).group).2 ||
        (create_tables (create_metadata_tables
          (update_realm_with_schema g v S).group).1 S false).2.1) = false
    rw [hbm2]
    simpa using hch
  · show migration_invocations
        ((if (create_metadata_tables (update_realm_with_schema g v S).group).2
            then [Event.metadataCreated] else []) ++
          [Event.tablesReconciled false
            (create_tables (create_metadata_tables
              (update_realm_with_schema g v S).group).1 S false).2.1]) = 0
    rw [migration_invocations_append, migration_invocations_ev1]
    rfl

theorem update_idempotent_witness :
    (update_realm_with_schema
        (update_realm_with_schema grpInit 1 [osA]).group 1 [osA]).group =
      (update_realm_with_schema grpInit 1 [osA]).group ∧
    (update_realm_with_schema
        (update_realm_with_schema grpInit 1 [osA]).group 1 [osA]).changed
      = false ∧
    migration_invocations
      (update_realm_with_schema
        (update_realm_with_schema grpInit 1 [osA]).group 1 [osA]).events = 0 :=
  update_idempotent grpInit 1 [osA] (by decide) (by rfl)

theorem validate_property_fst_length (t : Table) (p : Property) :
    (validate_property t p).1.length =
      if property_satisfiable t p = true then 0 else 1 := by
  unfold validate_property property_satisfiable
  cases hf : find_column t.columns p.name with
  | none => simp
  | some ic =>
      cases h1 : (ic.2.type == p.type) with
      | false => simp [bne, h1]
      | true =>
          cases h2 : (p.type == PropertyType.Object ||
              p.type == PropertyType.Array) with
          | false => simp [bne, h1, h2]
          | true =>
              cases h3 : (object_type_for_table_name ic.2.link_target ==
                  p.object_type) <;> simp [bne, h1, h2, h3]

theorem validate_property_fst_nil (t : Table) (p : Property) :
    ((validate_property t p).1 = []) ↔ property_satisfiable t p = true := by
  have h := validate_property_fst_length t p
  cases hs : property_satisfiable t p with
  | false =>
      rw [hs] at h
      simp only [if_neg (by simp : ¬(false = true))] at h
      constructor
      · intro hnil
        rw [hnil] at h
        simp at h
      · intro hh
        exact absurd hh (by simp)
  | true =>
      rw [hs] at h
      simp only [if_pos rfl] at h
      exact ⟨fun _ => rfl, fun _ => List.length_eq_zero.mp h⟩

theorem validate_property_snd_shape (t : Table) (p : Property) :
    (validate_property t p).2 =
      { p with table_column := (validate_property t p).2.table_column } := by
  unfold validate_property
  split
  · rfl
  · split
    · rfl
    · split
      · rfl
      · rfl

theorem validate_property_snd_sat (t : Table) (p : Property)
    (h : property_satisfiable t p = true) :
    ∃ c, find_column t.columns p.name =
      some ((validate_property t p).2.table_column, c) := by
  unfold property_satisfiable at h
  split at h
  · exact absurd h (by simp)
  · rename_i ic hf
    simp only [Bool.and_eq_true] at h
    obtain ⟨h1, h2⟩ := h
    have hc1 : (ic.2.type != p.type) = false := by simp [bne, h1]
    have hc2 : ((p.type == PropertyType.Object || p.type == PropertyType.Array) &&
        (object_type_for_table_name ic.2.link_target != p.object_type)) = false := by
      cases hl : (p.type == PropertyType.Object || p.type == PropertyType.Array)
      · simp
      · rw [hl] at h2
        simp only [Bool.not_true, Bool.false_or] at h2
        simp [bne, h2]
    unfold validate_property
    rw [hf]
    simp only [hc1, hc2]
    simp only [Bool.false_eq_true, if_false]
    exact ⟨ic.2, rfl⟩

theorem validate_list_err_length (t : Table) (ps : List Property) :
    ((ps.map (validate_property t)).map Prod.fst).flatten.length =
      ps.countP (fun p => !property_satisfiable t p) := by
  induction ps with
  | nil => rfl
  | cons p ps ih =>
      simp only [List.map_cons, List.flatten_cons, List.length_append,
        List.countP_cons, ih]
      have h := validate_property_fst_length t p
      cases hs : property_satisfiable t p <;> rw [hs] at h <;> simp [h, hs] <;> omega

theorem validate_list_err_nil (t : Table) (ps : List Property) :
    (((ps.map (validate_property t)).map Prod.fst).flatten = []) ↔
      ∀ p ∈ ps, property_satisfiable t p = true := by
  induction ps with
  | nil => simp
  | cons p ps ih =>
      simp only [List.map_cons, List.flatten_cons, List.append_eq_nil,
        List.mem_cons]
      constructor
      · rintro ⟨h1, h2⟩ q hq
        rcases hq with rfl | hq
        · exact (validate_property_fst_nil t q).mp h1
        · exact ih.mp h2 q hq
      · intro hall
        exact ⟨(validate_property_fst_nil t p).mpr (hall p (Or.inl rfl)),
          ih.mpr (fun q hq => hall q (Or.inr hq))⟩

/-- C8: validating a target descriptor against its resolved physical
table accumulates exactly one error per missing-or-mismatched property
(rather than failing on the first), keeps the descriptor's name,
primary key, and property count, changes each property at most in its
`table_column` field (set to the matching column's physical position for
each satisfiable property), and returns an empty error list exactly when
every property of the target is satisfiable against the table.  The
function returns no store, so it cannot mutate the physical type or link
structure. -/
theorem validate_mapping_accumulates (g : Group) (os : ObjectSchema) (t : Table)
    (ht : table_for_object_type g os.name = some t) :
    (validate_schema_and_update_column_mapping g os).1.length =
      os.properties.countP (fun p => !property_satisfiable t p) ∧
    (validate_schema_and_update_column_mapping g os).2.name = os.name ∧
    (validate_schema_and_update_column_mapping g os).2.primary_key =
      os.primary_key ∧
    (validate_schema_and_update_column_mapping g os).2.properties.length =
      os.properties.length ∧
    (∀ i (h1 : i < os.properties.length)
        (h2 : i < (validate_schema_and_update_column_mapping g os).2.properties.length),
      ((validate_schema_and_update_column_mapping g os).2.properties.get ⟨i, h2⟩ =
        { os.properties.get ⟨i, h1⟩ with
            table_column :=
              ((validate_schema_and_update_column_mapping g os).2.properties.get
                ⟨i, h2⟩).table_column }) ∧
      (property_satisfiable t (os.properties.get ⟨i, h1⟩) = true →
        ∃ c, find_column t.columns (os.properties.get ⟨i, h1⟩).name =
          some (((validate_schema_and_update_column_mapping g os).2.properties.get
            ⟨i, h2⟩).table_column, c))) ∧
    ((validate_schema_and_update_column_mapping g os).1 = [] ↔
      ∀ p ∈ os.properties, property_satisfiable t p = true) := by
  have hval : validate_schema_and_update_column_mapping g os =
      validateAgainstTable t os := by
    unfold validate_schema_and_update_column_mapping
    rw [ht]
    rfl
  rw [hval]
  unfold validateAgainstTable
  refine ⟨validate_list_err_length t os.properties, rfl, rfl, by simp, ?_,
    validate_list_err_nil t os.properties⟩
  intro i h1 h2
  have hget : ((os.properties.map (validate_property t)).map Prod.snd).get ⟨i, h2⟩
      = (validate_property t (os.properties.get ⟨i, h1⟩)).2 := by
    rw [List.get_eq_getElem, List.get_eq_getElem, List.getElem_map,
      List.getElem_map]
  constructor
  · rw [hget]
    exact validate_property_snd_shape t (os.properties.get ⟨i, h1⟩)
  · intro hsat
    rw [hget]
    exact validate_property_snd_sat t (os.properties.get ⟨i, h1⟩) hsat

theorem validate_mapping_accumulates_witness :
    (validate_schema_and_update_column_mapping grpDemo osTarget).1.length =
      osTarget.properties.countP (fun p => !property_satisfiable tblPerson p) ∧
    ((validate_schema_and_update_column_mapping grpDemo osTarget).1 = [] ↔
      ∀ p ∈ osTarget.properties, property_satisfiable tblPerson p = true) := by
  have h := validate_mapping_accumulates grpDemo osTarget tblPerson (by rfl)
  exact ⟨h.1, h.2.2.2.2.2⟩

end Realm
